import Mathlib

/-!
Shallow embedding of the `arsenal` CLI (src/cli-src/index.ts, the defensive
variant printed first in that file).  Remote HTTP exchanges and JSON
(de)serialisation are modelled as oracles supplied in an environment record;
the local filesystem state touched by each command (config file, pending
learnings directory, git hook file) is explicit.  Every command returns the
report it prints together with the successor state and, for `sync`, the trace
of files read and submitted.
-/

namespace Arsenal

/-- `Config`, the shape of `.arsenal/config.json` (index.ts lines 45-50). -/
structure Config where
  projectId : String
  apiKey : String
  userId : Int
  githubRepo : Option String
deriving DecidableEq, Repr

/-- `Learning`, the shape of one pending learning file (index.ts lines 53-60). -/
structure Learning where
  file_path : String
  function_name : String
  library_name : String
  description : String
  code_snippet : String
  title : Option String
deriving DecidableEq, Repr

/-- The `user` payload returned by `GET /auth/test-api-key`
(type `TestApiKeyResponse`, index.ts lines 37-42). -/
structure RemoteUser where
  user_id : Int
  project_id : Int
deriving DecidableEq, Repr

/-- Outcome of one `fetch` + body-parse exchange: `ok` is a 2xx response with
parsed body, `httpErr` is a non-2xx response (`!res.ok`), `thrown` is a
network or body-parse exception. -/
inductive FetchResult (α : Type) where
  | ok (body : α)
  | httpErr (status : Nat) (detail : Option String)
  | thrown (msg : String)
deriving DecidableEq, Repr

/-- JavaScript `parseInt(s)` restricted to base 10: skip leading whitespace,
an optional sign, then the maximal run of decimal digits; `none` is `NaN`. -/
def parseIntJS (s : String) : Option Int :=
  let cs := s.toList.dropWhile (fun c => c.isWhitespace)
  let signAndRest : Int × List Char :=
    match cs with
    | '-' :: r => (-1, r)
    | '+' :: r => (1, r)
    | r => (1, r)
  let ds := signAndRest.2.takeWhile (fun c => c.isDigit)
  if ds.isEmpty then none
  else some (signAndRest.1 * (ds.foldl (fun n c => n * 10 + (c.toNat - 48)) (0 : Nat) : Nat))

/-- The project-id comparison made by `validateConfig`:
`data.user.project_id !== parseInt(config.projectId)` (index.ts line 117),
as the *agreement* it tests.  `parseInt` yielding `NaN` never agrees. -/
def projectIdAgrees (c : Config) (pid : Int) : Bool :=
  match parseIntJS c.projectId with
  | none => false
  | some p => pid == p

instance {ε α : Type} [DecidableEq ε] [DecidableEq α] : DecidableEq (Except ε α) := fun x y =>
  match x, y with
  | .ok a, .ok b =>
    if h : a = b then .isTrue (by rw [h]) else .isFalse (by simp [h])
  | .error a, .error b =>
    if h : a = b then .isTrue (by rw [h]) else .isFalse (by simp [h])
  | .ok _, .error _ => .isFalse (by simp)
  | .error _, .ok _ => .isFalse (by simp)

/-- Which inner error `validateConfig` threw; the function wraps each of them
in `Configuration validation failed: ...` (index.ts line 121). -/
inductive ValidateErr where
  | invalidApiKey
  | mismatch
  | thrown (msg : String)
deriving DecidableEq, Repr

/-- `validateConfig` (index.ts lines 103-123), applied to the result of the
`GET /auth/test-api-key` exchange for `config.apiKey`. -/
def validateConfig (c : Config) (r : FetchResult RemoteUser) : Except ValidateErr Unit :=
  match r with
  | .thrown m => .error (.thrown m)
  | .httpErr _ _ => .error .invalidApiKey
  | .ok u =>
    if u.user_id != c.userId || !(projectIdAgrees c u.project_id) then
      .error .mismatch
    else
      .ok ()

/-- One directory entry of `.arsenal/learnings`: its file name (as returned by
`fs.readdir`) and its byte content. -/
structure FsFile where
  name : String
  content : String
deriving DecidableEq, Repr

/-- The local state the `sync` command touches: the raw content of
`.arsenal/config.json` (`none` when absent) and the `.arsenal/learnings`
directory (`none` when the directory itself does not exist). -/
structure SyncSt where
  configFile : Option String
  learningsDir : Option (List FsFile)
deriving DecidableEq, Repr

/-- Result of the `POST /projects/{id}/learnings` exchange for one record:
`ok` is 2xx, `httpErr` is `!res.ok` (the `Server error: ...` throw), `thrown`
is a network exception inside `sendLearning`. -/
inductive SubmitResult where
  | ok
  | httpErr (status : Nat) (detail : Option String)
  | thrown (msg : String)
deriving DecidableEq, Repr

/-- A submission outcome that is an actual HTTP response (2xx or not), as
opposed to a thrown network error. -/
def SubmitResult.isHttpResponse : SubmitResult → Bool
  | .ok => true
  | .httpErr _ _ => true
  | .thrown _ => false

/-- Environment of one `sync` run: the JSON parsers (oracles for `JSON.parse`
casts) and the remote service's response to each request, keyed by the
credential or pending-file name the request is made for.  `readdirThrows`
injects a failure of the one filesystem call (`fs.readdir`, line 293) that no
inner `try` guards, so it reaches the top-level `catch`. -/
structure SyncEnv where
  parseConfig : String → Option Config
  testApiKey : String → FetchResult RemoteUser
  readdirThrows : Option String
  parseLearning : String → Option Learning
  submit : String → SubmitResult

/-- The message `sync` ends with (index.ts lines 262, 270, 288, 296, 355-359,
362). -/
inductive SyncReport where
  | noConfig
  | validateFailed (e : ValidateErr)
  | noLearningsDir
  | nothingToSync
  | synced (successCount errorCount : Nat)
  | syncFailed (msg : String)
deriving DecidableEq, Repr

/-- Succeeded count the run prints: `synced` carries it, every other report
prints none (equivalently zero). -/
def SyncReport.successes : SyncReport → Nat
  | .synced s _ => s
  | _ => 0

/-- Failed count the run prints. -/
def SyncReport.failures : SyncReport → Nat
  | .synced _ e => e
  | _ => 0

/-- How a command handler ended: `report` is a message printed by the handler
itself (its body or its top-level `catch`); `crash` would be an exception
escaping the handler. -/
inductive Outcome (ρ : Type) where
  | report (r : ρ)
  | crash (msg : String)
deriving DecidableEq, Repr

def Outcome.isCrash {ρ : Type} : Outcome ρ → Bool
  | .crash _ => true
  | _ => false

/-- Accumulated effect of the per-file loop (index.ts lines 338-353). -/
structure LoopAcc where
  successCount : Nat
  errorCount : Nat
  deleted : List String
  submitted : List String
  reads : List String
deriving DecidableEq, Repr

/-- The per-file loop of `sync` over the `.json`-filtered directory listing:
read the file, `JSON.parse` it, `sendLearning` it; a success deletes the file
(`fs.unlink` inside `sendLearning`), any parse or submission failure is
caught by the loop body's `try` and only counted. -/
def syncFiles (env : SyncEnv) : List FsFile → LoopAcc
  | [] => ⟨0, 0, [], [], []⟩
  | f :: rest =>
    let r := syncFiles env rest
    match env.parseLearning f.content with
    | none =>
      ⟨r.successCount, r.errorCount + 1, r.deleted, r.submitted, f.name :: r.reads⟩
    | some _ =>
      match env.submit f.name with
      | .ok =>
        ⟨r.successCount + 1, r.errorCount, f.name :: r.deleted,
          f.name :: r.submitted, f.name :: r.reads⟩
      | _ =>
        ⟨r.successCount, r.errorCount + 1, r.deleted,
          f.name :: r.submitted, f.name :: r.reads⟩

/-- `s.endsWith(suff)`, computed on the underlying character lists. -/
def strEndsWith (s suff : String) : Bool := suff.toList.isSuffixOf s.toList

/-- A file is a pending record iff its name ends in `.json` (the `readdir`
filter `file.endsWith('.json')`, index.ts line 293). -/
def isJsonFile (f : FsFile) : Bool := strEndsWith f.name ".json"

/-- The body of the `sync` action (index.ts lines 251-360), up to but not
including its top-level `catch`; `.error` is an exception reaching that
`catch`.  Returns the report, the successor state, the submitted-file trace
and the read-file trace. -/
def syncBody (env : SyncEnv) (st : SyncSt) :
    Except String (SyncReport × SyncSt × List String × List String) :=
  match st.configFile with
  | none => .ok (.noConfig, st, [], [])
  | some raw =>
    match env.parseConfig raw with
    | none => .ok (.noConfig, st, [], [])
    | some config =>
      match validateConfig config (env.testApiKey config.apiKey) with
      | .error e => .ok (.validateFailed e, st, [], [])
      | .ok _ =>
        match st.learningsDir with
        | none => .ok (.noLearningsDir, st, [], [])
        | some dir =>
          match env.readdirThrows with
          | some m => .error m
          | none =>
            let files := dir.filter isJsonFile
            if files.length = 0 then .ok (.nothingToSync, st, [], [])
            else
              let r := syncFiles env files
              .ok (.synced r.successCount r.errorCount,
                   ⟨st.configFile,
                    some (dir.filter (fun f => !(r.deleted.contains f.name)))⟩,
                   r.submitted, r.reads)

/-- Everything observable about one `sync` run. -/
structure SyncRun where
  outcome : Outcome SyncReport
  state : SyncSt
  submitted : List String
  reads : List String
deriving DecidableEq, Repr

/-- The `sync` command: its body wrapped in the top-level `try/catch`
(index.ts lines 251 and 361-363), which converts any escaped exception into
the `Sync failed: ...` message. -/
def syncCommand (env : SyncEnv) (st : SyncSt) : SyncRun :=
  match syncBody env st with
  | .ok (r, st', subs, rds) => ⟨.report r, st', subs, rds⟩
  | .error m => ⟨.report (.syncFailed m), st, [], []⟩

/-- One record's run through the loop body succeeds iff it parses and its
submission gets a 2xx response. -/
def recordSucceeds (env : SyncEnv) (f : FsFile) : Bool :=
  match env.parseLearning f.content with
  | none => false
  | some _ =>
    match env.submit f.name with
    | .ok => true
    | _ => false

/-- One record reaches the submission call iff `JSON.parse` succeeded on it. -/
def recordParses (env : SyncEnv) (f : FsFile) : Bool :=
  (env.parseLearning f.content).isSome

/-- Names of the pending files one `sync` run deletes: the `.json` files whose
record parsed and whose submission succeeded. -/
def deletedNames (env : SyncEnv) (dir : List FsFile) : List String :=
  ((dir.filter isJsonFile).filter (recordSucceeds env)).map FsFile.name

/-- The local state the `link` and `unlink` commands touch: whether the
working directory is a git work tree (`isGitRepo()`, index.ts lines 63-72),
the raw config file, and the `.git/hooks/pre-push` file. -/
structure LinkSt where
  isGit : Bool
  configFile : Option String
  hookFile : Option String
deriving DecidableEq, Repr

/-- Environment of one `link` run.  The `git config --get remote.origin.url`
probe (lines 390-395) is omitted: its value is captured but never used by
this variant's prompt, and its failure is caught and only warned about.
`promptRepo` is the validated answer to the repo-URL prompt; `.error` is the
prompt itself rejecting. -/
structure LinkEnv where
  parseConfig : String → Option Config
  promptRepo : Except String String
  stringifyConfig : Config → String
  configWriteThrows : Option String
  hookWriteThrows : Option String

/-- The pre-push hook body written by `link` (index.ts lines 422-425). -/
def hookScript : String :=
  "#!/bin/bash\n              echo \"🔁 Running arsenal sync after Git push...\"\n              arsenal sync\n              "

/-- The message `link` ends with. -/
inductive LinkReport where
  | notAGitRepo
  | noConfig
  | linked
  | hookFailed (msg : String)
  | linkFailed (msg : String)
deriving DecidableEq, Repr

/-- The body of the `link` action (index.ts lines 371-434), up to its
top-level `catch`. -/
def linkBody (env : LinkEnv) (st : LinkSt) : Except String (LinkReport × LinkSt) :=
  if !st.isGit then .ok (.notAGitRepo, st)
  else
    match st.configFile with
    | none => .ok (.noConfig, st)
    | some raw =>
      match env.parseConfig raw with
      | none => .ok (.noConfig, st)
      | some config =>
        match env.promptRepo with
        | .error m => .error m
        | .ok url =>
          let config' := { config with githubRepo := some url }
          match env.configWriteThrows with
          | some m => .error m
          | none =>
            let st1 := { st with configFile := some (env.stringifyConfig config') }
            match env.hookWriteThrows with
            | some m => .ok (.hookFailed m, st1)
            | none => .ok (.linked, { st1 with hookFile := some hookScript })

/-- The `link` command: its body wrapped in the top-level `try/catch`
(index.ts lines 371 and 435-437). -/
def linkCommand (env : LinkEnv) (st : LinkSt) : Outcome LinkReport × LinkSt :=
  match linkBody env st with
  | .ok (r, st') => (.report r, st')
  | .error m => (.report (.linkFailed m), st)

/-- The message `unlink` ends with. -/
inductive UnlinkReport where
  | removed
  | notFound
  | unlinkFailed (msg : String)
deriving DecidableEq, Repr

/-- The body of the `unlink` action (index.ts lines 444-455): `fs.access`
then `fs.unlink` on the hook, both inside an inner `try` whose `catch`
reports that no hook was found. -/
def unlinkBody (st : LinkSt) : Except String (UnlinkReport × LinkSt) :=
  match st.hookFile with
  | some _ => .ok (.removed, { st with hookFile := none })
  | none => .ok (.notFound, st)

/-- The `unlink` command: its body wrapped in the top-level `try/catch`
(index.ts lines 444 and 456-458). -/
def unlinkCommand (st : LinkSt) : Outcome UnlinkReport × LinkSt :=
  match unlinkBody st with
  | .ok (r, st') => (.report r, st')
  | .error m => (.report (.unlinkFailed m), st)

/-- The parsed body of `POST /auth/login` (type `LoginResponse`, index.ts
lines 24-29); `detail` is the server-supplied failure message. -/
structure LoginData where
  access_token : String
  user_id : Int
  detail : Option String
deriving DecidableEq, Repr

/-- Environment of one `init` run: the validated prompt answers, the three
remote exchanges, and failure injectors for `fs.mkdir` (whose failure is
caught locally, lines 145-150), the prompt itself, and the final
`fs.writeFile` (both of which only the top-level `catch` guards). -/
structure InitEnv where
  mkdirThrows : Option String
  promptThrows : Option String
  email : String
  password : String
  projectIdAnswer : String
  login : FetchResult LoginData
  projectCheck : FetchResult Unit
  generateKey : FetchResult String
  stringifyConfig : Config → String
  writeThrows : Option String

/-- The local state `init` touches. -/
structure InitSt where
  configFile : Option String
deriving DecidableEq, Repr

/-- The message `init` ends with. -/
inductive InitReport where
  | mkdirFailed
  | loginFailed (detail : Option String)
  | projectNotOwned
  | keygenFailed (msg : String)
  | initialized
  | initFailed (msg : String)
deriving DecidableEq, Repr

/-- The body of the `init` action (index.ts lines 139-239), up to its
top-level `catch`.  `fetch`/`res.json()` exceptions of the login and
project-ownership exchanges escape to that `catch` (`.error`); a non-2xx
status is handled in place; `generateApiKey` runs inside its own `try`
(lines 223-229), so any of its failures only ends the command with the
key-generation message. -/
def initBody (env : InitEnv) (st : InitSt) : Except String (InitReport × InitSt) :=
  match env.mkdirThrows with
  | some _ => .ok (.mkdirFailed, st)
  | none =>
    match env.promptThrows with
    | some m => .error m
    | none =>
      match env.login with
      | .thrown m => .error m
      | .httpErr _ d => .ok (.loginFailed d, st)
      | .ok ld =>
        match env.projectCheck with
        | .thrown m => .error m
        | .httpErr _ _ => .ok (.projectNotOwned, st)
        | .ok _ =>
          match env.generateKey with
          | .thrown m => .ok (.keygenFailed m, st)
          | .httpErr _ d => .ok (.keygenFailed (d.getD "Failed to generate API key"), st)
          | .ok apiKey =>
            let config : Config :=
              ⟨env.projectIdAnswer, apiKey, ld.user_id, none⟩
            match env.writeThrows with
            | some m => .error m
            | none => .ok (.initialized, ⟨some (env.stringifyConfig config)⟩)

/-- The `init` command: its body wrapped in the top-level `try/catch`
(index.ts lines 139 and 240-242). -/
def initCommand (env : InitEnv) (st : InitSt) : Outcome InitReport × InitSt :=
  match initBody env st with
  | .ok (r, st') => (.report r, st')
  | .error m => (.report (.initFailed m), st)

/-- Succeeded count a whole run prints. -/
def SyncRun.reportedSuccesses (r : SyncRun) : Nat :=
  match r.outcome with
  | .report rep => rep.successes
  | .crash _ => 0

/-- Failed count a whole run prints. -/
def SyncRun.reportedFailures (r : SyncRun) : Nat :=
  match r.outcome with
  | .report rep => rep.failures
  | .crash _ => 0

/-- A concrete configuration used by the closed test runs below. -/
def cfg0 : Config := ⟨"7", "KEY", 42, none⟩

/-- A concrete learning record used by the closed test runs below. -/
def lrn0 : Learning := ⟨"a.ts", "f", "lib", "d", "code", none⟩

/-- A concrete environment: the config parses, the API key validates to the
matching user, `good.json` submits successfully, `bad.json` is rejected with
a 500. -/
def env0 : SyncEnv where
  parseConfig := fun s => if s = "CFG" then some cfg0 else none
  testApiKey := fun k => if k = "KEY" then .ok ⟨42, 7⟩ else .httpErr 401 none
  readdirThrows := none
  parseLearning := fun s => if s = "L" then some lrn0 else none
  submit := fun n => if n = "bad.json" then .httpErr 500 none else .ok

/-- A concrete starting state: two pending records and one stray non-json
file. -/
def st0 : SyncSt :=
  ⟨some "CFG", some [⟨"good.json", "L"⟩, ⟨"bad.json", "L"⟩, ⟨"note.txt", "x"⟩]⟩

/-- A concrete environment whose validation endpoint reports a different
user (43) than the stored configuration (42), while every submission would
succeed if one were ever made. -/
def env3 : SyncEnv where
  parseConfig := fun s => if s = "CFG" then some cfg0 else none
  testApiKey := fun _ => .ok ⟨43, 7⟩
  readdirThrows := none
  parseLearning := fun s => if s = "L" then some lrn0 else none
  submit := fun _ => .ok

/-- A concrete all-successful starting state for the idempotence runs: one
record the remote accepts, plus a stray non-json file. -/
def stGood : SyncSt := ⟨some "CFG", some [⟨"good.json", "L"⟩, ⟨"note.txt", "x"⟩]⟩

/-- A concrete link environment in which every step would succeed if
reached. -/
def lenv0 : LinkEnv where
  parseConfig := fun s => if s = "CFG" then some cfg0 else none
  promptRepo := .ok "https://github.com/user/repo"
  stringifyConfig := fun _ => "SERIALIZED"
  configWriteThrows := none
  hookWriteThrows := none

/-- A concrete link state: a configured project in a directory that is not a
git work tree. -/
def lst0 : LinkSt := ⟨false, some "CFG", none⟩

/-! Characterisation lemmas for the sync engine. -/

theorem countP_not_add {α : Type} (p : α → Bool) (l : List α) :
    l.countP p + l.countP (fun a => !p a) = l.length := by
  induction l with
  | nil => rfl
  | cons a l ih =>
    simp only [List.countP_cons, List.length_cons]
    cases h : p a <;> simp [h] <;> omega

theorem syncFiles_eq (env : SyncEnv) (l : List FsFile) :
    syncFiles env l =
      ⟨l.countP (recordSucceeds env),
       l.countP (fun f => !recordSucceeds env f),
       (l.filter (recordSucceeds env)).map FsFile.name,
       (l.filter (recordParses env)).map FsFile.name,
       l.map FsFile.name⟩ := by
  induction l with
  | nil => rfl
  | cons f rest ih =>
    simp only [syncFiles, ih]
    cases hp : env.parseLearning f.content with
    | none =>
      simp [List.countP_cons, List.filter_cons, recordSucceeds, recordParses, hp]
    | some lrn =>
      cases hs : env.submit f.name with
      | ok =>
        simp [List.countP_cons, List.filter_cons, recordSucceeds, recordParses, hp, hs]
      | httpErr s d =>
        simp [List.countP_cons, List.filter_cons, recordSucceeds, recordParses, hp, hs]
      | thrown m =>
        simp [List.countP_cons, List.filter_cons, recordSucceeds, recordParses, hp, hs]

theorem syncCommand_loop (env : SyncEnv) (st : SyncSt) (raw : String) (config : Config)
    (dir : List FsFile)
    (hc : st.configFile = some raw) (hp : env.parseConfig raw = some config)
    (hv : validateConfig config (env.testApiKey config.apiKey) = .ok ())
    (hd : st.learningsDir = some dir) (hr : env.readdirThrows = none)
    (hne : dir.filter isJsonFile ≠ []) :
    syncCommand env st =
      ⟨.report (.synced ((dir.filter isJsonFile).countP (recordSucceeds env))
          ((dir.filter isJsonFile).countP (fun f => !recordSucceeds env f))),
       ⟨st.configFile, some (dir.filter (fun f => !((deletedNames env dir).contains f.name)))⟩,
       ((dir.filter isJsonFile).filter (recordParses env)).map FsFile.name,
       (dir.filter isJsonFile).map FsFile.name⟩ := by
  have hlen : (dir.filter isJsonFile).length ≠ 0 := by
    simpa [List.length_eq_zero] using hne
  unfold syncCommand syncBody
  simp only [hc, hp, hv, hd, hr, hlen, if_neg, syncFiles_eq, deletedNames]
  simp

theorem syncCommand_no_json (env : SyncEnv) (st : SyncSt) (raw : String) (config : Config)
    (dir : List FsFile)
    (hc : st.configFile = some raw) (hp : env.parseConfig raw = some config)
    (hv : validateConfig config (env.testApiKey config.apiKey) = .ok ())
    (hd : st.learningsDir = some dir) (hr : env.readdirThrows = none)
    (he : dir.filter isJsonFile = []) :
    syncCommand env st = ⟨.report .nothingToSync, st, [], []⟩ := by
  unfold syncCommand syncBody
  simp only [hc, hp, hv, hd, hr, he]
  simp

theorem string_contains_iff_mem (l : List String) (a : String) :
    l.contains a = true ↔ a ∈ l := by
  simp [List.contains, List.elem_iff]

theorem name_mem_deletedNames (env : SyncEnv) (dir : List FsFile) (f : FsFile)
    (hf : f ∈ dir) (hj : isJsonFile f = true) (hs : recordSucceeds env f = true) :
    f.name ∈ deletedNames env dir := by
  simp only [deletedNames, List.mem_map]
  exact ⟨f, by simp [List.mem_filter, hf, hj, hs], rfl⟩

theorem of_mem_deletedNames (env : SyncEnv) (dir : List FsFile) (n : String)
    (h : n ∈ deletedNames env dir) :
    ∃ g, g ∈ dir ∧ isJsonFile g = true ∧ recordSucceeds env g = true ∧ g.name = n := by
  simp only [deletedNames, List.mem_map, List.mem_filter] at h
  obtain ⟨g, ⟨⟨hg, hj⟩, hs⟩, hn⟩ := h
  exact ⟨g, hg, hj, hs, hn⟩

theorem deletedNames_contains_eq (env : SyncEnv) (dir : List FsFile)
    (hnd : (dir.map FsFile.name).Nodup) (f : FsFile) (hf : f ∈ dir) :
    (deletedNames env dir).contains f.name = (isJsonFile f && recordSucceeds env f) := by
  by_cases hmem : f.name ∈ deletedNames env dir
  · obtain ⟨g, hg, hj, hs, hn⟩ := of_mem_deletedNames env dir f.name hmem
    have hgf : g = f := List.inj_on_of_nodup_map hnd hg hf hn
    subst hgf
    rw [(string_contains_iff_mem _ _).mpr hmem, hj, hs]
    rfl
  · have hcontains : (deletedNames env dir).contains f.name = false := by
      cases hcon : (deletedNames env dir).contains f.name with
      | false => rfl
      | true => exact absurd ((string_contains_iff_mem _ _).mp hcon) hmem
    rw [hcontains]
    cases hj : isJsonFile f with
    | false => rfl
    | true =>
      cases hs : recordSucceeds env f with
      | false => rfl
      | true => exact absurd (name_mem_deletedNames env dir f hf hj hs) hmem

theorem sync_final_dir (env : SyncEnv) (st : SyncSt) (raw : String) (config : Config)
    (dir : List FsFile)
    (hc : st.configFile = some raw) (hp : env.parseConfig raw = some config)
    (hv : validateConfig config (env.testApiKey config.apiKey) = .ok ())
    (hd : st.learningsDir = some dir) (hr : env.readdirThrows = none)
    (hnd : (dir.map FsFile.name).Nodup) :
    (syncCommand env st).state.learningsDir =
      some (dir.filter (fun f => !(isJsonFile f && recordSucceeds env f))) := by
  by_cases he : dir.filter isJsonFile = []
  · rw [syncCommand_no_json env st raw config dir hc hp hv hd hr he]
    simp only [hd]
    have hnoj : ∀ f ∈ dir, isJsonFile f = false := by
      intro f hf
      have := List.filter_eq_nil_iff.mp he f hf
      simpa using this
    have : dir.filter (fun f => !(isJsonFile f && recordSucceeds env f)) = dir := by
      rw [List.filter_eq_self]
      intro f hf
      rw [hnoj f hf]
      rfl
    rw [this]
  · rw [syncCommand_loop env st raw config dir hc hp hv hd hr he]
    simp only
    congr 1
    apply List.filter_congr
    intro f hf
    rw [deletedNames_contains_eq env dir hnd f hf]

/-! The claims. -/

/-- C1: after one sync run over a loaded, validated configuration and an
existing pending directory with distinct file names, the pending directory
ends up being exactly the original directory with the successfully-submitted
`.json` records removed; in particular each record whose submission got a 2xx
response is deleted from pending storage, and each record whose submission
got a failure response or whose content failed to parse is still present,
byte-for-byte unchanged. -/
theorem C1_success_deleted_failure_kept (env : SyncEnv) (st : SyncSt) (raw : String)
    (config : Config) (dir : List FsFile)
    (hc : st.configFile = some raw) (hp : env.parseConfig raw = some config)
    (hv : validateConfig config (env.testApiKey config.apiKey) = .ok ())
    (hd : st.learningsDir = some dir) (hr : env.readdirThrows = none)
    (hnd : (dir.map FsFile.name).Nodup) :
    (syncCommand env st).state.learningsDir =
      some (dir.filter (fun f => !(isJsonFile f && recordSucceeds env f))) ∧
    (∀ f, f ∈ dir → isJsonFile f = true → recordSucceeds env f = true →
      f.name ∉ ((syncCommand env st).state.learningsDir.getD []).map FsFile.name) ∧
    (∀ f, f ∈ dir → isJsonFile f = true → recordSucceeds env f = false →
      f ∈ (syncCommand env st).state.learningsDir.getD []) := by
  have heq := sync_final_dir env st raw config dir hc hp hv hd hr hnd
  refine ⟨heq, ?_, ?_⟩
  · intro f hf hj hs hmem
    rw [heq] at hmem
    simp only [Option.getD_some, List.mem_map] at hmem
    obtain ⟨g, hg, hn⟩ := hmem
    rw [List.mem_filter] at hg
    have hgf : g = f := List.inj_on_of_nodup_map hnd hg.1 hf hn
    subst hgf
    rw [hj, hs] at hg
    simp at hg
  · intro f hf hj hs
    rw [heq]
    simp only [Option.getD_some, List.mem_filter]
    exact ⟨hf, by rw [hj, hs]; rfl⟩

/-- Closed witness for C1 at a concrete run: two records, one accepted and
one rejected with a 500; the accepted one is gone afterwards, the rejected
one and a stray non-json file remain unchanged. -/
theorem C1_witness :
    st0.configFile = some "CFG" ∧
    env0.parseConfig "CFG" = some cfg0 ∧
    validateConfig cfg0 (env0.testApiKey cfg0.apiKey) = .ok () ∧
    st0.learningsDir = some [⟨"good.json", "L"⟩, ⟨"bad.json", "L"⟩, ⟨"note.txt", "x"⟩] ∧
    env0.readdirThrows = none ∧
    (syncCommand env0 st0).state.learningsDir =
      some [⟨"bad.json", "L"⟩, ⟨"note.txt", "x"⟩] := by
  have h := C1_success_deleted_failure_kept env0 st0 "CFG" cfg0
    [⟨"good.json", "L"⟩, ⟨"bad.json", "L"⟩, ⟨"note.txt", "x"⟩]
    (by decide) (by decide) (by decide) (by decide) (by decide) (by decide)
  exact ⟨by decide, by decide, by decide, by decide, by decide, h.1.trans (by decide)⟩

/-- C2: over the N enumerated `.json` records, all of which parse and each of
which gets an HTTP response, with the remote rejecting (non-2xx) exactly k of
them, the run reports N−k succeeded and k failed, and exactly N−k files are
removed from pending storage. -/
theorem C2_success_failure_counts (env : SyncEnv) (st : SyncSt) (raw : String)
    (config : Config) (dir : List FsFile) (N k : Nat)
    (hc : st.configFile = some raw) (hp : env.parseConfig raw = some config)
    (hv : validateConfig config (env.testApiKey config.apiKey) = .ok ())
    (hd : st.learningsDir = some dir) (hr : env.readdirThrows = none)
    (hnd : (dir.map FsFile.name).Nodup)
    (hparse : ∀ f ∈ dir.filter isJsonFile, (env.parseLearning f.content).isSome = true)
    (_hresp : ∀ f ∈ dir.filter isJsonFile, (env.submit f.name).isHttpResponse = true)
    (hN : (dir.filter isJsonFile).length = N)
    (hk : (dir.filter isJsonFile).countP (fun f => !(env.submit f.name == .ok)) = k) :
    (syncCommand env st).reportedSuccesses = N - k ∧
    (syncCommand env st).reportedFailures = k ∧
    dir.length = ((syncCommand env st).state.learningsDir.getD []).length + (N - k) := by
  have hpt : ∀ f ∈ dir.filter isJsonFile,
      recordSucceeds env f = (env.submit f.name == .ok) := by
    intro f hf
    have hps := hparse f hf
    unfold recordSucceeds
    cases hpp : env.parseLearning f.content with
    | none => rw [hpp] at hps; simp at hps
    | some l => cases hss : env.submit f.name <;> simp [hss]
  have hsucc : (dir.filter isJsonFile).countP (recordSucceeds env) = N - k := by
    have h1 : (dir.filter isJsonFile).countP (recordSucceeds env)
        = (dir.filter isJsonFile).countP (fun f => env.submit f.name == .ok) := by
      apply List.countP_congr
      intro f hf
      rw [hpt f hf]
    have h2 := countP_not_add (fun f => env.submit f.name == .ok) (dir.filter isJsonFile)
    rw [hN] at h2
    rw [hk] at h2  -- hk matches the second summand
    omega
  have hfail : (dir.filter isJsonFile).countP (fun f => !recordSucceeds env f) = k := by
    have h1 : (dir.filter isJsonFile).countP (fun f => !recordSucceeds env f)
        = (dir.filter isJsonFile).countP (fun f => !(env.submit f.name == .ok)) := by
      apply List.countP_congr
      intro f hf
      rw [hpt f hf]
    rw [h1, hk]
  have heq := sync_final_dir env st raw config dir hc hp hv hd hr hnd
  have hflen : ((syncCommand env st).state.learningsDir.getD []).length
      = dir.countP (fun f => !(isJsonFile f && recordSucceeds env f)) := by
    rw [heq]
    simp [List.countP_eq_length_filter]
  have hdel : dir.countP (fun f => isJsonFile f && recordSucceeds env f) = N - k := by
    have h1 : dir.countP (fun f => isJsonFile f && recordSucceeds env f)
        = (dir.filter isJsonFile).countP (recordSucceeds env) := by
      rw [List.countP_filter]
      apply List.countP_congr
      intro f hf
      constructor
      · intro h
        simp only [Bool.and_eq_true] at h ⊢
        exact ⟨h.2, h.1⟩
      · intro h
        simp only [Bool.and_eq_true] at h ⊢
        exact ⟨h.2, h.1⟩
    rw [h1, hsucc]
  constructor
  · by_cases he : dir.filter isJsonFile = []
    · rw [syncCommand_no_json env st raw config dir hc hp hv hd hr he]
      have hN0 : N = 0 := by rw [← hN, he]; rfl
      have hk0 : k = 0 := by rw [← hk, he]; rfl
      simp [SyncRun.reportedSuccesses, SyncReport.successes, hN0, hk0]
    · rw [syncCommand_loop env st raw config dir hc hp hv hd hr he]
      simp only [SyncRun.reportedSuccesses, SyncReport.successes]
      exact hsucc
  constructor
  · by_cases he : dir.filter isJsonFile = []
    · rw [syncCommand_no_json env st raw config dir hc hp hv hd hr he]
      have hk0 : k = 0 := by rw [← hk, he]; rfl
      simp [SyncRun.reportedFailures, SyncReport.failures, hk0]
    · rw [syncCommand_loop env st raw config dir hc hp hv hd hr he]
      simp only [SyncRun.reportedFailures, SyncReport.failures]
      exact hfail
  · rw [hflen]
    have := countP_not_add (fun f => isJsonFile f && recordSucceeds env f) dir
    omega

/-- Closed witness for C2 at the concrete run: N = 2, k = 1, one record
accepted, one rejected; the run ends reporting one success and one failure
and removes exactly one file. -/
theorem C2_witness :
    (st0.learningsDir =
      some [⟨"good.json", "L"⟩, ⟨"bad.json", "L"⟩, ⟨"note.txt", "x"⟩]) ∧
    ([⟨"good.json", "L"⟩, ⟨"bad.json", "L"⟩, ⟨"note.txt", "x"⟩].filter isJsonFile).length = 2 ∧
    ([⟨"good.json", "L"⟩, ⟨"bad.json", "L"⟩, ⟨"note.txt", "x"⟩].filter
        isJsonFile).countP (fun f => !(env0.submit f.name == .ok)) = 1 ∧
    (syncCommand env0 st0).reportedSuccesses = 1 ∧
    (syncCommand env0 st0).reportedFailures = 1 ∧
    ([⟨"good.json", "L"⟩, ⟨"bad.json", "L"⟩, ⟨"note.txt", "x"⟩] : List FsFile).length =
      ((syncCommand env0 st0).state.learningsDir.getD []).length + 1 := by
  have h := C2_success_failure_counts env0 st0 "CFG" cfg0
    [⟨"good.json", "L"⟩, ⟨"bad.json", "L"⟩, ⟨"note.txt", "x"⟩] 2 1
    (by decide) (by decide) (by decide) (by decide) (by decide) (by decide)
    (by decide) (by decide) (by decide) (by decide)
  exact ⟨by decide, by decide, by decide, h.1, h.2.1, h.2.2⟩

/-- C3: when the validation endpoint returns a user/project pair differing
from the stored configuration in either field, `validateConfig` fails with
the config-mismatch error, and the sync run ends right there: it submits
nothing, reads no pending file and deletes no pending file — the whole local
state is untouched. -/
theorem C3_mismatch_blocks_sync (env : SyncEnv) (st : SyncSt) (raw : String)
    (config : Config) (u : RemoteUser)
    (hc : st.configFile = some raw) (hp : env.parseConfig raw = some config)
    (ht : env.testApiKey config.apiKey = .ok u)
    (hm : u.user_id ≠ config.userId ∨ projectIdAgrees config u.project_id = false) :
    validateConfig config (.ok u) = .error .mismatch ∧
    syncCommand env st = ⟨.report (.validateFailed .mismatch), st, [], []⟩ := by
  have hval : validateConfig config (.ok u) = .error .mismatch := by
    unfold validateConfig
    have hcond : (u.user_id != config.userId || !(projectIdAgrees config u.project_id)) = true := by
      rcases hm with h | h
      · have : (u.user_id != config.userId) = true := by simpa [bne_iff_ne] using h
        simp [this]
      · simp [h]
    simp [hcond]
  refine ⟨hval, ?_⟩
  unfold syncCommand syncBody
  simp only [hc, hp, ht, hval]

/-- Closed witness for C3: the stored user id is 42, the endpoint answers
43; validation reports the mismatch and the sync run leaves the two pending
records alone. -/
theorem C3_witness :
    st0.configFile = some "CFG" ∧
    env3.parseConfig "CFG" = some cfg0 ∧
    env3.testApiKey cfg0.apiKey = .ok ⟨43, 7⟩ ∧
    (43 : Int) ≠ cfg0.userId ∧
    validateConfig cfg0 (.ok ⟨43, 7⟩) = .error .mismatch ∧
    syncCommand env3 st0 = ⟨.report (.validateFailed .mismatch), st0, [], []⟩ := by
  have h := C3_mismatch_blocks_sync env3 st0 "CFG" cfg0 ⟨43, 7⟩
    (by decide) (by decide) (by decide) (Or.inl (by decide))
  exact ⟨by decide, by decide, by decide, by decide, h.1, h.2⟩

/-- C4: once the run reaches the per-record loop, a parse failure or a
submission failure of one record never aborts the batch: whatever the
per-record outcomes, every enumerated record is read, each record is counted
either as succeeded or as failed (the two counts partition the batch), and
the command still completes with the normal aggregate report. -/
theorem C4_no_batch_abort (env : SyncEnv) (st : SyncSt) (raw : String)
    (config : Config) (dir : List FsFile)
    (hc : st.configFile = some raw) (hp : env.parseConfig raw = some config)
    (hv : validateConfig config (env.testApiKey config.apiKey) = .ok ())
    (hd : st.learningsDir = some dir) (hr : env.readdirThrows = none)
    (hne : dir.filter isJsonFile ≠ []) :
    (syncCommand env st).outcome =
      .report (.synced ((dir.filter isJsonFile).countP (recordSucceeds env))
        ((dir.filter isJsonFile).countP (fun f => !recordSucceeds env f))) ∧
    (dir.filter isJsonFile).countP (recordSucceeds env)
      + (dir.filter isJsonFile).countP (fun f => !recordSucceeds env f)
      = (dir.filter isJsonFile).length ∧
    (syncCommand env st).reads = (dir.filter isJsonFile).map FsFile.name := by
  have hrun := syncCommand_loop env st raw config dir hc hp hv hd hr hne
  rw [hrun]
  exact ⟨rfl, countP_not_add (recordSucceeds env) (dir.filter isJsonFile), rfl⟩

/-- Closed witness for C4: one record fails with a 500, yet the other is
still processed and the run reports the aggregate outcome. -/
theorem C4_witness :
    ([⟨"good.json", "L"⟩, ⟨"bad.json", "L"⟩, ⟨"note.txt", "x"⟩].filter isJsonFile
      ≠ ([] : List FsFile)) ∧
    (syncCommand env0 st0).outcome = .report (.synced 1 1) ∧
    (syncCommand env0 st0).reads = ["good.json", "bad.json"] := by
  have h := C4_no_batch_abort env0 st0 "CFG" cfg0
    [⟨"good.json", "L"⟩, ⟨"bad.json", "L"⟩, ⟨"note.txt", "x"⟩]
    (by decide) (by decide) (by decide) (by decide) (by decide) (by decide)
  exact ⟨by decide, h.1.trans (by decide), h.2.2.trans (by decide)⟩

/-- C5: with a loaded and validated configuration, if the pending directory
is absent, or exists but holds no `.json` record, the run terminates with the
nothing-to-sync style report, submits nothing, reads nothing, reports zero
successes and zero failures, and leaves the state untouched. -/
theorem C5_nothing_to_sync (env : SyncEnv) (st : SyncSt) (raw : String) (config : Config)
    (hc : st.configFile = some raw) (hp : env.parseConfig raw = some config)
    (hv : validateConfig config (env.testApiKey config.apiKey) = .ok ())
    (hr : env.readdirThrows = none)
    (hempty : st.learningsDir = none ∨
      ∃ dir, st.learningsDir = some dir ∧ dir.filter isJsonFile = []) :
    ((syncCommand env st).outcome = .report .noLearningsDir ∨
      (syncCommand env st).outcome = .report .nothingToSync) ∧
    (syncCommand env st).submitted = [] ∧
    (syncCommand env st).reads = [] ∧
    (syncCommand env st).reportedSuccesses = 0 ∧
    (syncCommand env st).reportedFailures = 0 ∧
    (syncCommand env st).state = st := by
  rcases hempty with hnone | ⟨dir, hd, he⟩
  · have hrun : syncCommand env st = ⟨.report .noLearningsDir, st, [], []⟩ := by
      unfold syncCommand syncBody
      simp only [hc, hp, hv, hnone]
    rw [hrun]
    exact ⟨Or.inl rfl, rfl, rfl, rfl, rfl, rfl⟩
  · rw [syncCommand_no_json env st raw config dir hc hp hv hd hr he]
    exact ⟨Or.inr rfl, rfl, rfl, rfl, rfl, rfl⟩

/-- Closed witness for C5: the directory exists but holds only a non-json
file; the run reports nothing to sync, submits nothing and changes
nothing. -/
theorem C5_witness :
    (SyncSt.mk (some "CFG") (some [⟨"note.txt", "x"⟩])).learningsDir =
      some [⟨"note.txt", "x"⟩] ∧
    ([⟨"note.txt", "x"⟩] : List FsFile).filter isJsonFile = [] ∧
    (syncCommand env0 ⟨some "CFG", some [⟨"note.txt", "x"⟩]⟩).outcome =
      .report .nothingToSync ∧
    (syncCommand env0 ⟨some "CFG", some [⟨"note.txt", "x"⟩]⟩).submitted = [] ∧
    (syncCommand env0 ⟨some "CFG", some [⟨"note.txt", "x"⟩]⟩).state =
      ⟨some "CFG", some [⟨"note.txt", "x"⟩]⟩ := by
  have h := C5_nothing_to_sync env0 ⟨some "CFG", some [⟨"note.txt", "x"⟩]⟩ "CFG" cfg0
    (by decide) (by decide) (by decide) (by decide)
    (Or.inr ⟨[⟨"note.txt", "x"⟩], rfl, by decide⟩)
  refine ⟨by decide, by decide, ?_, h.2.1, h.2.2.2.2.2⟩
  rcases h.1 with h1 | h1
  · exact absurd h1 (by decide)
  · exact h1

/-- C6: `validateConfig` on the result of the `validateApiKey` exchange: a
thrown exchange fails wrapping the underlying message and a non-2xx response
fails as an invalid api key (the two ways `validateApiKey` itself can fail),
while a 2xx response succeeds exactly when the returned user id equals the
stored one and the returned project id agrees with the stored project-id
string, and fails with the config-mismatch error exactly when either field
disagrees. -/
theorem C6_validate_case_analysis (c : Config) (u : RemoteUser) (s : Nat)
    (d : Option String) (m : String) :
    validateConfig c (.thrown m) = .error (.thrown m) ∧
    validateConfig c (.httpErr s d) = .error .invalidApiKey ∧
    (validateConfig c (.ok u) = .ok () ↔
      (u.user_id = c.userId ∧ projectIdAgrees c u.project_id = true)) ∧
    (validateConfig c (.ok u) = .error .mismatch ↔
      (u.user_id ≠ c.userId ∨ projectIdAgrees c u.project_id = false)) := by
  refine ⟨rfl, rfl, ?_, ?_⟩ <;>
  · unfold validateConfig
    by_cases h1 : u.user_id = c.userId <;>
      cases h2 : projectIdAgrees c u.project_id <;>
      simp [h1, h2, bne_iff_ne]

/-- Every `sync` run either leaves the state untouched with empty traces
(the runs that never reach the per-file loop), or satisfies all the
preconditions of the loop characterisation. -/
theorem syncCommand_shape (env : SyncEnv) (st : SyncSt) :
    ((syncCommand env st).state = st ∧ (syncCommand env st).submitted = [] ∧
      (syncCommand env st).reads = []) ∨
    (∃ raw config dir,
      st.configFile = some raw ∧ env.parseConfig raw = some config ∧
      validateConfig config (env.testApiKey config.apiKey) = .ok () ∧
      st.learningsDir = some dir ∧ env.readdirThrows = none ∧
      dir.filter isJsonFile ≠ []) := by
  cases hc : st.configFile with
  | none =>
    left
    have hrun : syncCommand env st = ⟨.report .noConfig, st, [], []⟩ := by
      unfold syncCommand syncBody
      simp only [hc]
    rw [hrun]
    exact ⟨rfl, rfl, rfl⟩
  | some raw =>
    cases hp : env.parseConfig raw with
    | none =>
      left
      have hrun : syncCommand env st = ⟨.report .noConfig, st, [], []⟩ := by
        unfold syncCommand syncBody
        simp only [hc, hp]
      rw [hrun]
      exact ⟨rfl, rfl, rfl⟩
    | some config =>
      cases hv : validateConfig config (env.testApiKey config.apiKey) with
      | error e =>
        left
        have hrun : syncCommand env st = ⟨.report (.validateFailed e), st, [], []⟩ := by
          unfold syncCommand syncBody
          simp only [hc, hp, hv]
        rw [hrun]
        exact ⟨rfl, rfl, rfl⟩
      | ok u =>
        cases u
        cases hd : st.learningsDir with
        | none =>
          left
          have hrun : syncCommand env st = ⟨.report .noLearningsDir, st, [], []⟩ := by
            unfold syncCommand syncBody
            simp only [hc, hp, hv, hd]
          rw [hrun]
          exact ⟨rfl, rfl, rfl⟩
        | some dir =>
          cases hr : env.readdirThrows with
          | some m =>
            left
            have hrun : syncCommand env st = ⟨.report (.syncFailed m), st, [], []⟩ := by
              unfold syncCommand syncBody
              simp only [hc, hp, hv, hd, hr]
            rw [hrun]
            exact ⟨rfl, rfl, rfl⟩
          | none =>
            by_cases he : dir.filter isJsonFile = []
            · left
              rw [syncCommand_no_json env st raw config dir hc hp hv hd hr he]
              exact ⟨rfl, rfl, rfl⟩
            · right
              exact ⟨raw, config, dir, rfl, hp, hv, rfl, rfl, he⟩

/-- Records that survive a run's deletion step can not have succeeded in that
run. -/
theorem surviving_record_not_succeeded (env : SyncEnv) (dir : List FsFile) (f : FsFile)
    (hf : f ∈ dir.filter (fun g => !((deletedNames env dir).contains g.name)))
    (hj : isJsonFile f = true) : recordSucceeds env f = false := by
  rw [List.mem_filter] at hf
  obtain ⟨hfd, hnc⟩ := hf
  cases hs : recordSucceeds env f with
  | false => rfl
  | true =>
    have hmem := name_mem_deletedNames env dir f hfd hj hs
    rw [(string_contains_iff_mem _ _).mpr hmem] at hnc
    simp at hnc

/-- Running `sync` a second time on the state a first run left behind, with
the environment (remote responses, parsers) unchanged, leaves that state
exactly as it was. -/
theorem sync_state_idempotent (env : SyncEnv) (st : SyncSt) :
    (syncCommand env (syncCommand env st).state).state = (syncCommand env st).state := by
  rcases syncCommand_shape env st with ⟨hst, _, _⟩ | ⟨raw, config, dir, hc, hp, hv, hd, hr, hne⟩
  · rw [hst]
    exact hst
  · have hrun := syncCommand_loop env st raw config dir hc hp hv hd hr hne
    set fin := dir.filter (fun f => !((deletedNames env dir).contains f.name)) with hfin
    have hst1 : (syncCommand env st).state = ⟨st.configFile, some fin⟩ := by
      rw [hrun]
    rw [hst1]
    by_cases he2 : fin.filter isJsonFile = []
    · rw [syncCommand_no_json env ⟨st.configFile, some fin⟩ raw config fin hc hp hv rfl hr he2]
    · rw [syncCommand_loop env ⟨st.configFile, some fin⟩ raw config fin hc hp hv rfl hr he2]
      simp only
      have hdel2 : deletedNames env fin = [] := by
        have hnil : (fin.filter isJsonFile).filter (recordSucceeds env) = [] := by
          apply List.filter_eq_nil_iff.mpr
          intro g hg
          rw [List.mem_filter] at hg
          simp [surviving_record_not_succeeded env dir g hg.1 hg.2]
        unfold deletedNames
        rw [hnil]
        rfl
      rw [hdel2]
      have hkeep : fin.filter (fun f => !(([] : List String).contains f.name)) = fin := by
        rw [List.filter_eq_self]
        intro a _
        rfl
      rw [hkeep]

/-- C7 counterexample: one pending record whose submission the remote
rejects identically on both runs.  The second run re-attempts the record and
fails again, so it does not report the nothing-to-sync outcome — refuting
the claim as stated (its state-identity half does hold; the report half is
what fails). -/
theorem C7_counterexample :
    ¬ ((syncCommand env0
          (syncCommand env0 ⟨some "CFG", some [⟨"bad.json", "L"⟩]⟩).state).outcome
        = .report .nothingToSync) := by decide

/-- C7 (amended): running sync twice in a row with the remote service
responding identically and no new records always leaves the local state
after the second run identical to the state after the first run; and the
second run reports the nothing-to-sync outcome provided the first run loaded
and validated the configuration, saw the pending directory, and had no
per-record failure (otherwise the second run re-attempts the leftover
records). -/
theorem C7_amended_idempotence (env : SyncEnv) (st : SyncSt) (raw : String)
    (config : Config) (dir : List FsFile) :
    ((syncCommand env (syncCommand env st).state).state = (syncCommand env st).state) ∧
    (st.configFile = some raw → env.parseConfig raw = some config →
      validateConfig config (env.testApiKey config.apiKey) = .ok () →
      st.learningsDir = some dir → env.readdirThrows = none →
      (dir.filter isJsonFile).countP (fun f => !recordSucceeds env f) = 0 →
      (syncCommand env (syncCommand env st).state).outcome = .report .nothingToSync) := by
  refine ⟨sync_state_idempotent env st, ?_⟩
  intro hc hp hv hd hr hzero
  have hall : ∀ f ∈ dir.filter isJsonFile, recordSucceeds env f = true := by
    intro f hf
    have hnot := List.countP_eq_zero.mp hzero f hf
    cases h : recordSucceeds env f with
    | true => rfl
    | false => exact absurd (by simp [h]) hnot
  by_cases he : dir.filter isJsonFile = []
  · have hrun := syncCommand_no_json env st raw config dir hc hp hv hd hr he
    rw [hrun]
    rw [hrun]
  · have hrun := syncCommand_loop env st raw config dir hc hp hv hd hr he
    set fin := dir.filter (fun f => !((deletedNames env dir).contains f.name)) with hfin
    have hst1 : (syncCommand env st).state = ⟨st.configFile, some fin⟩ := by
      rw [hrun]
    rw [hst1]
    have hjson2 : fin.filter isJsonFile = [] := by
      apply List.filter_eq_nil_iff.mpr
      intro f hf hj
      rw [List.mem_filter] at hf
      obtain ⟨hfd, hnc⟩ := hf
      have hs : recordSucceeds env f = true := hall f (List.mem_filter.mpr ⟨hfd, hj⟩)
      have hmem := name_mem_deletedNames env dir f hfd hj hs
      rw [(string_contains_iff_mem _ _).mpr hmem] at hnc
      simp at hnc
    rw [syncCommand_no_json env ⟨st.configFile, some fin⟩ raw config fin hc hp hv rfl hr hjson2]

/-- Closed witness for the amended C7: a run in which the single pending
record is submitted successfully; the second run changes nothing and
reports nothing to sync. -/
theorem C7_witness :
    stGood.configFile = some "CFG" ∧
    env0.parseConfig "CFG" = some cfg0 ∧
    ([⟨"good.json", "L"⟩, ⟨"note.txt", "x"⟩].filter
      isJsonFile).countP (fun f => !recordSucceeds env0 f) = 0 ∧
    (syncCommand env0 (syncCommand env0 stGood).state).state = (syncCommand env0 stGood).state ∧
    (syncCommand env0 (syncCommand env0 stGood).state).outcome = .report .nothingToSync := by
  have h := C7_amended_idempotence env0 stGood "CFG" cfg0 [⟨"good.json", "L"⟩, ⟨"note.txt", "x"⟩]
  exact ⟨by decide, by decide, by decide, h.1,
    h.2 (by decide) (by decide) (by decide) (by decide) (by decide) (by decide)⟩

/-- C8: `link` in a directory that is not a git work tree reports the
not-a-git-repo failure before touching anything: the whole state — hook file
and configuration included — is returned unchanged. -/
theorem C8_link_requires_git (env : LinkEnv) (st : LinkSt) (h : st.isGit = false) :
    linkCommand env st = (.report .notAGitRepo, st) ∧
    (linkCommand env st).2.hookFile = st.hookFile ∧
    (linkCommand env st).2.configFile = st.configFile := by
  have hrun : linkCommand env st = (.report .notAGitRepo, st) := by
    unfold linkCommand linkBody
    simp [h]
  exact ⟨hrun, by rw [hrun], by rw [hrun]⟩

/-- Closed witness for C8: a configured project outside any git work tree;
`link` fails with the not-a-git-repo report and writes nothing. -/
theorem C8_witness :
    lst0.isGit = false ∧
    linkCommand lenv0 lst0 = (.report .notAGitRepo, lst0) ∧
    (linkCommand lenv0 lst0).2.hookFile = none ∧
    (linkCommand lenv0 lst0).2.configFile = some "CFG" := by
  have h := C8_link_requires_git lenv0 lst0 (by decide)
  exact ⟨by decide, h.1, h.2.1.trans (by decide), h.2.2.trans (by decide)⟩

/-- C9: every command handler — `init`, `sync`, `link`, `unlink` — wraps its
whole body in a top-level try/catch, so under every combination of
filesystem and remote failures the handler ends in a displayed report and
never lets an exception escape as a process-level crash. -/
theorem C9_no_command_crashes (ie : InitEnv) (ist : InitSt) (se : SyncEnv) (sst : SyncSt)
    (le : LinkEnv) (lst ust : LinkSt) :
    (initCommand ie ist).1.isCrash = false ∧
    (syncCommand se sst).outcome.isCrash = false ∧
    (linkCommand le lst).1.isCrash = false ∧
    (unlinkCommand ust).1.isCrash = false := by
  refine ⟨?_, ?_, ?_, ?_⟩
  · unfold initCommand
    cases h : initBody ie ist with
    | ok p =>
      obtain ⟨r, st'⟩ := p
      simp [h, Outcome.isCrash]
    | error m => simp [h, Outcome.isCrash]
  · unfold syncCommand
    cases h : syncBody se sst with
    | ok p =>
      obtain ⟨r, st', subs, rds⟩ := p
      simp [h, Outcome.isCrash]
    | error m => simp [h, Outcome.isCrash]
  · unfold linkCommand
    cases h : linkBody le lst with
    | ok p =>
      obtain ⟨r, st'⟩ := p
      simp [h, Outcome.isCrash]
    | error m => simp [h, Outcome.isCrash]
  · unfold unlinkCommand
    cases h : unlinkBody ust with
    | ok p =>
      obtain ⟨r, st'⟩ := p
      simp [h, Outcome.isCrash]
    | error m => simp [h, Outcome.isCrash]

/-- C10: a sync run submits only files whose names end in `.json`, reads
only such files, and leaves every other file in the pending directory
untouched: the non-json part of the directory (files, bytes and order) is
the same before and after every run. -/
theorem C10_only_json_touched (env : SyncEnv) (st : SyncSt) :
    (syncCommand env st).submitted.all (fun n => strEndsWith n ".json") = true ∧
    (syncCommand env st).reads.all (fun n => strEndsWith n ".json") = true ∧
    ((syncCommand env st).state.learningsDir.map
        (fun l => l.filter (fun f => !isJsonFile f)))
      = st.learningsDir.map (fun l => l.filter (fun f => !isJsonFile f)) := by
  rcases syncCommand_shape env st with ⟨hst, hsub, hrds⟩ |
    ⟨raw, config, dir, hc, hp, hv, hd, hr, hne⟩
  · rw [hst, hsub, hrds]
    exact ⟨rfl, rfl, rfl⟩
  · have hrun := syncCommand_loop env st raw config dir hc hp hv hd hr hne
    rw [hrun]
    simp only
    refine ⟨?_, ?_, ?_⟩
    · rw [List.all_eq_true]
      intro n hn
      rw [List.mem_map] at hn
      obtain ⟨f, hf, hfn⟩ := hn
      rw [List.mem_filter] at hf
      have hj : isJsonFile f = true := (List.mem_filter.mp hf.1).2
      rw [← hfn]
      exact hj
    · rw [List.all_eq_true]
      intro n hn
      rw [List.mem_map] at hn
      obtain ⟨f, hf, hfn⟩ := hn
      have hj : isJsonFile f = true := (List.mem_filter.mp hf).2
      rw [← hfn]
      exact hj
    · have hlist :
          (dir.filter (fun f => !((deletedNames env dir).contains f.name))).filter
              (fun f => !isJsonFile f)
            = dir.filter (fun f => !isJsonFile f) := by
        rw [List.filter_filter]
        apply List.filter_congr
        intro f hf
        cases hj : isJsonFile f with
        | true => simp
        | false =>
          have hnc : (deletedNames env dir).contains f.name = false := by
            cases hcon : (deletedNames env dir).contains f.name with
            | false => rfl
            | true =>
              have hmem := (string_contains_iff_mem _ _).mp hcon
              obtain ⟨g, _, hgj, _, hgn⟩ := of_mem_deletedNames env dir f.name hmem
              have hjf : isJsonFile f = true := by
                unfold isJsonFile at hgj ⊢
                rw [← hgn]
                exact hgj
              rw [hjf] at hj
              cases hj
          rw [hnc]
          rfl
      rw [hd]
      simp only [Option.map]
      rw [hlist]

end Arsenal
